import Mathlib

/-!
Shallow embedding of the funding-arbitrage analyzer
(`src/utils/funding_arbitrage_analyzer.py`): the two Hyperliquid paginated
extractors, the Bybit combined extractor, and the per-coin
position/commission/funding/metrics analysis of `analyze_performance`.

Modelling conventions:
* decimal quantities are rationals;
* timestamps are naturals (milliseconds in raw API payloads; the formatted
  `'%Y-%m-%d %H:%M:%S'` record timestamps are modelled by their whole-second
  value `ms / 1000`, and the window bounds handed to `pd.to_datetime` are
  whole seconds because `_parse_datetime_string` parses at minute precision);
* Python dict records are structures; raw JSON fields are modelled already
  parsed, with the source's `get(..., default)` defaults baked in;
* the venue HTTP clients are function-typed oracles: `PageResp.fail` is a
  non-200 response, `PageResp.ok batch` a 200 response with parsed body, and
  the Bybit signed-request helper returning the falsy `{}` is `Option.none`;
* `while` loops are fuel-indexed recursions; each wrapper passes fuel that
  dominates the loop's iteration count (the Hyperliquid chunk loops advance
  `next_start` by at least 1 ms per iteration), so the embedding agrees with
  the source loop; Bybit cursor chains are client-controlled, so the cursor
  fuel is exposed as a parameter of `extract_bybit_data`;
* the dedup keys built by f-strings are modelled as the tuples of their
  components, and the Python `set` of seen keys as a list with membership
  tests (insertion order is irrelevant to membership);
* `pandas` frames are lists of records, boolean-mask filtering is
  `List.filter`, and `df.sort_values('time')` is a stable insertion sort on
  the second-precision timestamp (the source's tie order on equal formatted
  times is an unspecified pandas detail; no theorem below depends on it).
-/

namespace FundingArb

/-- Python `s.lower()` restricted to the characters the analyzer compares:
the lowered character list of a string. -/
def lowerStr (s : String) : List Char := s.toList.map Char.toLower

/-- Helper for substring search: does the second list start with the first? -/
def startsWithL : List Char → List Char → Bool
  | [], _ => true
  | _ :: _, [] => false
  | a :: as, b :: bs => a == b && startsWithL as bs

/-- Python `needle in hay` on char lists: contiguous substring occurrence. -/
def hasSub (needle : List Char) : List Char → Bool
  | [] => needle.isEmpty
  | c :: cs => startsWithL needle (c :: cs) || hasSub needle cs

/-- Case-insensitive substring test used throughout the analyzer, covering
both `'open' in trade_dir.lower()` and
`.str.contains('Open', case=False, na=False)` (the needles contain no regex
metacharacters). -/
def dirHas (needle : String) (dir : String) : Bool :=
  hasSub (lowerStr needle) (lowerStr dir)

/-! ### Hyperliquid extraction (`extract_hyperliquid_trades` / `_funding`) -/

/-- A raw Hyperliquid `userFills` entry, with the source's
`fill.get(field, default)` defaults already applied. `time` is in ms. -/
structure RawFill where
  time : Nat
  coin : String
  dir : String
  px : ℚ
  sz : ℚ
  fee : ℚ
  closedPnl : ℚ
deriving DecidableEq

/-- A raw Hyperliquid `userFunding` entry (`delta` fields inlined). -/
structure RawFund where
  time : Nat
  coin : String
  szi : ℚ
  usdc : ℚ
  fundingRate : ℚ
deriving DecidableEq

/-- The components of the f-string
`f"{time}_{coin}_{px}_{sz}_{dir}"` used as the trade dedup key. -/
def FillKey : Type := Nat × String × ℚ × ℚ × String

instance : DecidableEq FillKey := by
  unfold FillKey
  infer_instance

/-- The components of the f-string
`f"{time}_{coin}_{szi}_{usdc}"` used as the funding dedup key. -/
def FundKey : Type := Nat × String × ℚ × ℚ

instance : DecidableEq FundKey := by
  unfold FundKey
  infer_instance

/-- Trade dedup key of a raw fill. -/
def fillKey (f : RawFill) : FillKey := (f.time, f.coin, f.px, f.sz, f.dir)

/-- Funding dedup key of a raw funding entry. -/
def fundKey (f : RawFund) : FundKey := (f.time, f.coin, f.szi, f.usdc)

/-- A normalized Hyperliquid trade record as appended to `trade_data`.
`timeSec` is the whole-second value of the formatted `'%Y-%m-%d %H:%M:%S'`
string. -/
structure HlTrade where
  timeSec : Nat
  coin : String
  dir : String
  px : ℚ
  sz : ℚ
  ntl : ℚ
  fee : ℚ
  closedPnl : ℚ
deriving DecidableEq

/-- A normalized Hyperliquid funding record as appended to `funding_data`. -/
structure HlFund where
  timeSec : Nat
  coin : String
  sz : ℚ
  side : String
  payment : ℚ
  rate : ℚ
deriving DecidableEq

/-- The dict literal appended for a fill
(`'time': strftime(...), 'ntl': sz * px`, …). -/
def mkTrade (f : RawFill) : HlTrade :=
  { timeSec := f.time / 1000
    coin := f.coin
    dir := f.dir
    px := f.px
    sz := f.sz
    ntl := f.sz * f.px
    fee := f.fee
    closedPnl := f.closedPnl }

/-- The dict literal appended for a funding entry
(`'side': 'Long' if szi > 0 else 'Short'`). -/
def mkFund (f : RawFund) : HlFund :=
  { timeSec := f.time / 1000
    coin := f.coin
    sz := f.szi
    side := if 0 < f.szi then "Long" else "Short"
    payment := f.usdc
    rate := f.fundingRate }

/-- Body of the dedup-and-append loop over one fills batch: skip if the
key is already in `seen_trades`, otherwise record the key and append. -/
def processFill (st : List FillKey × List HlTrade) (f : RawFill) :
    List FillKey × List HlTrade :=
  if fillKey f ∈ st.1 then st else (fillKey f :: st.1, st.2 ++ [mkTrade f])

/-- Python `for fill in batch:` over one fills page. -/
def processFills (st : List FillKey × List HlTrade) (batch : List RawFill) :
    List FillKey × List HlTrade :=
  batch.foldl processFill st

/-- Body of the dedup-and-append loop over one funding batch. -/
def processFund (st : List FundKey × List HlFund) (f : RawFund) :
    List FundKey × List HlFund :=
  if fundKey f ∈ st.1 then st else (fundKey f :: st.1, st.2 ++ [mkFund f])

/-- Python `for fund in batch:` over one funding page. -/
def processFunds (st : List FundKey × List HlFund) (batch : List RawFund) :
    List FundKey × List HlFund :=
  batch.foldl processFund st

/-- Result of one Hyperliquid page request: `fail` is a non-200 status,
`ok` the parsed JSON body. -/
inductive PageResp (ρ : Type) where
  | fail : PageResp ρ
  | ok : List ρ → PageResp ρ

/-- Source constant `batch_size_ms = 24 * 60 * 60 * 1000`. -/
def dayMs : Nat := 86400000

/-- The Hyperliquid chunked `while next_start < end_timestamp` loop, shared
by the trades and funding extractors (their bodies are identical up to the
batch-processing function).  Besides the accumulated state it returns the
list of `(startTime, endTime)` requests actually issued, in order.  On a
non-200 response the source logs and `break`s out of the whole loop,
returning whatever was accumulated so far; an empty (falsy) body skips to
the next chunk. -/
def hlPagedLoop {ρ σ : Type} (client : Nat → Nat → PageResp ρ)
    (process : σ → List ρ → σ) :
    Nat → Nat → Nat → σ → List (Nat × Nat) × σ
  | 0, _, _, st => ([], st)
  | fuel + 1, endT, nextStart, st =>
    if nextStart < endT then
      let batchEnd := min (nextStart + dayMs) endT
      match client nextStart batchEnd with
      | PageResp.fail => ([(nextStart, batchEnd)], st)
      | PageResp.ok batch =>
        if batch.isEmpty then
          let r := hlPagedLoop client process fuel endT (batchEnd + 1) st
          ((nextStart, batchEnd) :: r.1, r.2)
        else
          let r := hlPagedLoop client process fuel endT (batchEnd + 1)
            (process st batch)
          ((nextStart, batchEnd) :: r.1, r.2)
    else ([], st)

/-- Embedding of `extract_hyperliquid_trades`: chunked traversal with dedup, then the
defensive client-side window re-filter (the `datetime` comparison of the
second-precision record time against the minute-precision window bounds). -/
def extract_hyperliquid_trades (client : Nat → Nat → PageResp RawFill)
    (startSec endSec : Nat) : List HlTrade :=
  let startMs := 1000 * startSec
  let endMs := 1000 * endSec
  let run := hlPagedLoop client processFills (endMs + 1) endMs startMs ([], [])
  let td := run.2.2
  if td.isEmpty then td
  else td.filter (fun r => decide (startSec ≤ r.timeSec ∧ r.timeSec ≤ endSec))

/-- Embedding of `extract_hyperliquid_funding`: same loop shape over `userFunding`. -/
def extract_hyperliquid_funding (client : Nat → Nat → PageResp RawFund)
    (startSec endSec : Nat) : List HlFund :=
  let startMs := 1000 * startSec
  let endMs := 1000 * endSec
  let run := hlPagedLoop client processFunds (endMs + 1) endMs startMs ([], [])
  let fd := run.2.2
  if fd.isEmpty then fd
  else fd.filter (fun r => decide (startSec ≤ r.timeSec ∧ r.timeSec ≤ endSec))

/-- First-occurrence dedup by trade key, starting from an already-seen key
set.  This is the specification-side description of what `processFills`
appends; the extractors themselves never call it. -/
def dedupFills (seen : List FillKey) : List RawFill → List RawFill
  | [] => []
  | f :: fs =>
    if fillKey f ∈ seen then dedupFills seen fs
    else f :: dedupFills (fillKey f :: seen) fs

/-- First-occurrence dedup by funding key (specification side). -/
def dedupFunds (seen : List FundKey) : List RawFund → List RawFund
  | [] => []
  | f :: fs =>
    if fundKey f ∈ seen then dedupFunds seen fs
    else f :: dedupFunds (fundKey f :: seen) fs

/-! ### Bybit extraction (`extract_bybit_data`) -/

/-- A raw `/v5/execution/list` entry with the source's defaults applied
(`closedPnl` falsy-or-missing is already collapsed to 0 as in
`float(exec.get('closedPnl', 0)) if exec.get('closedPnl') else 0`). -/
structure BbExec where
  symbol : String
  execType : String
  execTime : Nat
  execFee : ℚ
  side : String
  execQty : ℚ
  execPrice : ℚ
  closedPnl : ℚ
  execId : String
  orderId : String
deriving DecidableEq

/-- A raw `/v5/position/closed-pnl` entry. -/
structure BbPnl where
  symbol : String
  updatedTime : Nat
  orderId : String
  side : String
  qty : ℚ
  avgEntryPrice : ℚ
  closedPnl : ℚ
deriving DecidableEq

/-- A combined Bybit record as appended to `combined_data`.  The
trade-specific columns hold `''` on funding rows in the source; those empty
strings are modelled as `none`. -/
structure BbRow where
  type : String
  timeSec : Nat
  symbol : String
  amount : ℚ
  asset : String
  tranId : String
  tradeId : String
  side : String
  quantity : Option ℚ
  price : Option ℚ
  realizedPnl : Option ℚ
deriving DecidableEq

/-- Oracle for `_bb_signed_request("/v5/execution/list", params)`: arguments
are the optional `symbol` parameter, `startTime`, `endTime`, and the
optional page cursor; `none` is the falsy `{}` result (HTTP or retCode
failure), otherwise the page's `list` and `nextPageCursor`. -/
def BbExecClient : Type :=
  Option String → Nat → Nat → Option String → Option (List BbExec × Option String)

/-- Oracle for `_bb_signed_request("/v5/position/closed-pnl", params)`. -/
def BbPnlClient : Type :=
  Nat → Nat → Option String → Option (List BbPnl × Option String)

/-- The inner `while True:` cursor loop: fetch a page, append its `list`,
stop when the fetch is falsy or the returned cursor is falsy, otherwise
continue with the new cursor.  Fuel bounds the client-controlled chain
length. -/
def bbCursorLoop {α : Type}
    (fetch : Option String → Option (List α × Option String)) :
    Nat → Option String → List α → List α
  | 0, _, acc => acc
  | fuel + 1, cursor, acc =>
    match fetch cursor with
    | none => acc
    | some (lst, next) =>
      match next with
      | none => acc ++ lst
      | some c => bbCursorLoop fetch fuel (some c) (acc ++ lst)

/-- Source constant `seven_days_ms = 7 * 24 * 60 * 60 * 1000`. -/
def sevenDaysMs : Nat := 604800000

/-- The Bybit `while current_start < end_timestamp` chunking, as the list of
`(current_start, current_end)` windows it visits (nothing in the source
breaks out of this outer loop). -/
def bbChunksF : Nat → Nat → Nat → List (Nat × Nat)
  | 0, _, _ => []
  | fuel + 1, endT, cur =>
    if cur < endT then
      let ce := min (cur + sevenDaysMs) endT
      (cur, ce) :: bbChunksF fuel endT (ce + 1)
    else []

/-- Python `symbols.add(...)`, modelled as an insertion-ordered duplicate-free
list (the Python `set` has no specified iteration order; the claims below
never depend on the order in which phase 2 visits symbols). -/
def addSymbol (syms : List String) (s : String) : List String :=
  if syms.contains s then syms else syms ++ [s]

/-- All executions fetched for one optional symbol across every time chunk
(chunk loop outside, cursor loop inside). -/
def bbExecFetch (execC : BbExecClient) (symbol : Option String)
    (cursorFuel : Nat) (chunks : List (Nat × Nat)) : List BbExec :=
  chunks.flatMap (fun ch =>
    bbCursorLoop (fun cur => execC symbol ch.1 ch.2 cur) cursorFuel none [])

/-- The `combined_data.append` dict for one execution: funding executions
become `FUNDING_FEE` rows with negated fee, everything else a `TRADE` row
with absolute fee. -/
def mkBbExecRow (e : BbExec) : BbRow :=
  if e.execType == "Funding" then
    { type := "FUNDING_FEE"
      timeSec := e.execTime / 1000
      symbol := e.symbol
      amount := -e.execFee
      asset := "USDT"
      tranId := e.execId
      tradeId := ""
      side := ""
      quantity := none
      price := none
      realizedPnl := none }
  else
    { type := "TRADE"
      timeSec := e.execTime / 1000
      symbol := e.symbol
      amount := |e.execFee|
      asset := "USDT"
      tranId := e.execId
      tradeId := e.orderId
      side := e.side
      quantity := some e.execQty
      price := some e.execPrice
      realizedPnl := some e.closedPnl }

/-- The `combined_data.append` dict for one closed-PnL record
(`'type': 'COMMISSION'`, zero amount). -/
def mkBbPnlRow (p : BbPnl) : BbRow :=
  { type := "COMMISSION"
    timeSec := p.updatedTime / 1000
    symbol := p.symbol
    amount := 0
    asset := "USDT"
    tranId := p.orderId
    tradeId := p.orderId
    side := p.side
    quantity := some p.qty
    price := some p.avgEntryPrice
    realizedPnl := some p.closedPnl }

/-- Stable insertion of a row into a list sorted by `timeSec`. -/
def insertByTime (r : BbRow) : List BbRow → List BbRow
  | [] => [r]
  | x :: xs => if r.timeSec < x.timeSec then r :: x :: xs else x :: insertByTime r xs

/-- Python `df.sort_values('time')` as a stable sort on the second-precision
timestamp. -/
def sortByTime (l : List BbRow) : List BbRow := l.foldr insertByTime []

/-- Embedding of `extract_bybit_data`: phase 1 discovers traded symbols, phase 2 fetches
per-symbol executions into combined rows, phase 3 appends closed-PnL rows;
the result is sorted by time.  Note that, unlike the Hyperliquid
extractors, no dedup set is consulted and no client-side window re-filter
is applied before returning. -/
def extract_bybit_data (execC : BbExecClient) (pnlC : BbPnlClient)
    (cursorFuel startSec endSec : Nat) : List BbRow :=
  let startMs := 1000 * startSec
  let endMs := 1000 * endSec
  let chunks := bbChunksF (endMs + 1) endMs startMs
  let discovered := bbExecFetch execC none cursorFuel chunks
  let symbols := discovered.foldl (fun syms e => addSymbol syms e.symbol) []
  let tradeRows := symbols.flatMap (fun sym =>
    if sym == "" then []
    else (bbExecFetch execC (some sym) cursorFuel chunks).map mkBbExecRow)
  let pnlRows := (chunks.flatMap (fun ch =>
    bbCursorLoop (fun cur => pnlC ch.1 ch.2 cur) cursorFuel none [])).map mkBbPnlRow
  let combined := tradeRows ++ pnlRows
  if combined.isEmpty then combined else sortByTime combined

/-! ### Per-coin analysis (`analyze_performance`, lines 451-693)

The per-coin loop body is embedded as `analyzeCoin`.  The Python locals
`open_trades` and `close_trades` are assigned only under conditions and are
function-scoped, so a later iteration can observe (or miss) a binding from
an earlier one; they are threaded through the loop as `VarState`, with
`none` meaning "never assigned" and a read of `none` the `NameError` that
aborts the run. -/

/-- Python `'open' in trade_dir` (lower-cased). -/
def openTag (t : HlTrade) : Bool := dirHas "open" t.dir

/-- Python `'close' in trade_dir` (lower-cased). -/
def closeTag (t : HlTrade) : Bool := dirHas "close" t.dir

/-- Python `'long' in trade_dir or 'buy' in trade_dir`. -/
def longTag (t : HlTrade) : Bool := dirHas "long" t.dir || dirHas "buy" t.dir

/-- Python `'short' in trade_dir or 'sell' in trade_dir`. -/
def shortTag (t : HlTrade) : Bool := dirHas "short" t.dir || dirHas "sell" t.dir

/-- One iteration of the net-position loop (lines 482-498): the running
state is `(net_position_size, position_opened, position_closed)`. -/
def tradeStep (acc : ℚ × Bool × Bool) (t : HlTrade) : ℚ × Bool × Bool :=
  if openTag t then
    if longTag t then (acc.1 + t.sz, true, acc.2.2)
    else if shortTag t then (acc.1 - t.sz, true, acc.2.2)
    else (acc.1, true, acc.2.2)
  else if closeTag t then
    if longTag t then (acc.1 - t.sz, acc.2.1, true)
    else if shortTag t then (acc.1 + t.sz, acc.2.1, true)
    else (acc.1, acc.2.1, true)
  else acc

/-- The whole net-position loop from the initial state
`(0, False, False)`. -/
def tradeFold (fills : List HlTrade) : ℚ × Bool × Bool :=
  fills.foldl tradeStep (0, false, false)

/-- Variable `net_position_size` after the loop. -/
def net_position_size (fills : List HlTrade) : ℚ := (tradeFold fills).1

/-- Variable `position_opened` after the loop. -/
def position_opened (fills : List HlTrade) : Bool := (tradeFold fills).2.1

/-- Variable `position_closed` after the loop. -/
def position_closed (fills : List HlTrade) : Bool := (tradeFold fills).2.2

/-- Variable `position_is_open` (lines 500-523): from `abs(net) > 0.001` when the
coin has trades, defaulting to open when it has none. -/
def position_is_open (fills : List HlTrade) : Bool :=
  if fills.isEmpty then true
  else decide ((0.001 : ℚ) < |net_position_size fills|)

/-- Python `coin_hl_trades.loc[coin_hl_trades['sz'].abs().idxmax()]`: the first
trade of maximal `|sz|` (`idxmax` returns the first index attaining the
maximum). -/
def largestAbsTrade (t0 : HlTrade) (ts : List HlTrade) : HlTrade :=
  ts.foldl (fun best t => if |best.sz| < |t.sz| then t else best) t0

/-- Variable `position_side` (lines 476, 500-529): side from the sign of the net
size when open; from the largest-magnitude trade's tag when closed; from
the latest funding record's signed size when there are no trades at all. -/
def position_side (fills : List HlTrade) (funding : List HlFund) : String :=
  match fills with
  | t0 :: ts =>
    if (0.001 : ℚ) < |net_position_size (t0 :: ts)| then
      if 0 < net_position_size (t0 :: ts) then "Long hl" else "Short hl"
    else
      if dirHas "long" (largestAbsTrade t0 ts).dir then "Long hl (closed)"
      else "Short hl (closed)"
  | [] =>
    match funding.getLast? with
    | some latest => if 0 < latest.sz then "Long hl" else "Short hl"
    | none => ""

/-- Python `open_trades = coin_hl_trades[coin_hl_trades['dir'].str.contains('Open',
case=False, na=False)]`. -/
def open_trades (fills : List HlTrade) : List HlTrade := fills.filter openTag

/-- Python `close_trades = coin_hl_trades[coin_hl_trades['dir'].str.contains('Close',
case=False, na=False)]`. -/
def close_trades (fills : List HlTrade) : List HlTrade := fills.filter closeTag

/-- Variable `entry_price` (lines 532-544): weighted average price over the
open-tagged trades, or the sentinel `""` (here `none`) when never
assigned. -/
def entry_price (fills : List HlTrade) : Option ℚ :=
  if position_opened fills && !fills.isEmpty then
    let ot := open_trades fills
    if !ot.isEmpty then
      let totalSize := |(ot.map HlTrade.sz).sum|
      if 0 < totalSize then
        some ((ot.map (fun t => |t.sz| * t.px)).sum / totalSize)
      else none
    else none
  else none

/-- Variable `exit_price` (lines 546-555): weighted average price over the
close-tagged trades, computed only when the position both saw a closing
fill and ended not-open. -/
def exit_price (fills : List HlTrade) : Option ℚ :=
  if position_closed fills && !position_is_open fills && !fills.isEmpty then
    let ct := close_trades fills
    if !ct.isEmpty then
      let totalSize := |(ct.map HlTrade.sz).sum|
      if 0 < totalSize then
        some ((ct.map (fun t => |t.sz| * t.px)).sum / totalSize)
      else none
    else none
  else none

/-- The function-scoped Python locals `open_trades` / `close_trades`:
`none` means the name was never assigned so far in the run. -/
structure VarState where
  openTradesVar : Option (List HlTrade)
  closeTradesVar : Option (List HlTrade)
deriving DecidableEq

/-- The state at the start of `analyze_performance`. -/
def initialVarState : VarState := ⟨none, none⟩

/-- The conditional assignments of `open_trades` (line 538) and
`close_trades` (line 549) during one loop iteration. -/
def updateVars (st : VarState) (fills : List HlTrade) : VarState :=
  let st1 :=
    if position_opened fills && !fills.isEmpty then
      { st with openTradesVar := some (open_trades fills) }
    else st
  if position_closed fills && !position_is_open fills && !fills.isEmpty then
    { st1 with closeTradesVar := some (close_trades fills) }
  else st1

/-- Variables `hl_commission_open` / `hl_commission_close` (lines 557-573).  For an
open position all fees are open commissions; for a closed position the
split reads the `open_trades` and `close_trades` locals, raising
`NameError` when one of them was never assigned. -/
def hl_commissions (st : VarState) (fills : List HlTrade) :
    Except String (ℚ × ℚ) :=
  if position_is_open fills then
    Except.ok (if !fills.isEmpty then (-(fills.map HlTrade.fee).sum, 0) else (0, 0))
  else
    match st.openTradesVar with
    | none => Except.error "NameError"
    | some ot =>
      match st.closeTradesVar with
      | none => Except.error "NameError"
      | some ct =>
        Except.ok
          (if !ot.isEmpty then -(ot.map HlTrade.fee).sum else 0,
           if !ct.isEmpty then -(ct.map HlTrade.fee).sum else 0)

/-- Variable `bb_commission_open` (lines 576-582): the negated absolute sum of the
Bybit `TRADE` amounts. -/
def bb_commission_open (bb : List BbRow) : ℚ :=
  let bbTrades := bb.filter (fun r => r.type == "TRADE")
  if !bbTrades.isEmpty then -|(bbTrades.map BbRow.amount).sum| else 0

/-- Variable `hl_funding_total` (line 593). -/
def hl_funding_total (funding : List HlFund) : ℚ :=
  if !funding.isEmpty then (funding.map HlFund.payment).sum else 0

/-- Variable `bb_funding_total` (line 594). -/
def bb_funding_total (bb : List BbRow) : ℚ :=
  if !bb.isEmpty then
    ((bb.filter (fun r => r.type == "FUNDING_FEE")).map BbRow.amount).sum
  else 0

/-- The annualization used for both APRs (lines 623-625, 634-636): zero
unless the duration is positive and the percentage nonzero. -/
def aprCalc (percentage durationHours : ℚ) : ℚ :=
  if 0 < durationHours ∧ percentage ≠ 0 then
    percentage / durationHours * (365 * 24)
  else 0

/-- Variable `days_until_commission_paid` (lines 638-664), as a function of the two
commission buckets, the funding total, and the duration in hours.  The
final `else` is the initialization value 999999, unreachable because the
cost is an absolute value. -/
def days_until_commission_paid
    (commissionOpen commissionClose funding durationHours : ℚ) : ℚ :=
  let cost := |commissionOpen + commissionClose|
  if 0 < cost ∧ 0 < funding then
    if cost ≤ funding then
      let fundingPerHour := if 0 < durationHours then funding / durationHours else 0
      if 0 < fundingPerHour then cost / fundingPerHour / 24 else 0
    else
      let fundingPerHour := if 0 < durationHours then funding / durationHours else 0
      if 0 < fundingPerHour then cost / fundingPerHour / 24 else 999999
  else if 0 < cost ∧ funding ≤ 0 then 999999
  else if cost = 0 then 0
  else 999999

/-- One row of `analysis_results` (lines 678-693); the `''` placeholders
for entry/exit price are `none`. -/
structure Row where
  symbol : String
  side : String
  entryPrice : Option ℚ
  exitPrice : Option ℚ
  positionSize : ℚ
  commissionOpen : ℚ
  commissionClose : ℚ
  fundingTotal : ℚ
  realizedPnl : ℚ
  percentage : ℚ
  durationHours : ℚ
  apr : ℚ
  aprExclCommission : ℚ
  daysUntilCommissionPaid : ℚ
deriving DecidableEq

/-- Python `len(coin_hl_trades) > 0 or len(coin_hl_funding) > 0 or
len(coin_bb_data) > 0`: the negation of the `continue` guard at
lines 470-472. -/
def coinHasData (coin : String) (hlT : List HlTrade) (hlF : List HlFund)
    (bb : List BbRow) : Bool :=
  !((hlT.filter (fun t => t.coin == coin)).isEmpty &&
    (hlF.filter (fun f => f.coin == coin)).isEmpty &&
    (bb.filter (fun r => r.symbol == coin ++ "USDT")).isEmpty)

/-- The row built for a coin from its frames, the hl commission split, and
the duration (lines 576-693). -/
def mkRow (coin : String) (fills : List HlTrade) (funding : List HlFund)
    (coinBb : List BbRow) (durationHours hlCo hlCc : ℚ) : Row :=
  let totalCommissionOpen := hlCo + bb_commission_open coinBb
  let totalCommissionClose := hlCc
  let totalFunding := hl_funding_total funding + bb_funding_total coinBb
  let realizedPnl := totalCommissionOpen + totalCommissionClose + totalFunding
  let notional : ℚ := if coin == "LINK" || coin == "LTC" then 40 else 20
  let percentage := realizedPnl / notional * 100
  let fundingPercentage := totalFunding / notional * 100
  { symbol := coin
    side := position_side fills funding
    entryPrice := entry_price fills
    exitPrice := exit_price fills
    positionSize := if !fills.isEmpty then |net_position_size fills| else 0
    commissionOpen := totalCommissionOpen
    commissionClose := totalCommissionClose
    fundingTotal := totalFunding
    realizedPnl := realizedPnl
    percentage := percentage
    durationHours := durationHours
    apr := aprCalc percentage durationHours
    aprExclCommission := aprCalc fundingPercentage durationHours
    daysUntilCommissionPaid :=
      days_until_commission_paid totalCommissionOpen totalCommissionClose
        totalFunding durationHours }

/-- One iteration of the `for coin in target_coins:` loop (lines 451-693):
either the coin is skipped for lack of data, or a `Row` is produced —
unless the closed-position commission split raises. -/
def analyzeCoin (st : VarState) (coin : String) (hlT : List HlTrade)
    (hlF : List HlFund) (bb : List BbRow) (durationHours : ℚ) :
    Except String (Option Row × VarState) :=
  if coinHasData coin hlT hlF bb then
    match hl_commissions (updateVars st (hlT.filter (fun t => t.coin == coin)))
        (hlT.filter (fun t => t.coin == coin)) with
    | Except.error e => Except.error e
    | Except.ok (hlCo, hlCc) =>
      Except.ok
        (some (mkRow coin (hlT.filter (fun t => t.coin == coin))
            (hlF.filter (fun f => f.coin == coin))
            (bb.filter (fun r => r.symbol == coin ++ "USDT"))
            durationHours hlCo hlCc),
         updateVars st (hlT.filter (fun t => t.coin == coin)))
  else Except.ok (none, st)

/-- The `for coin in target_coins:` loop, collecting `analysis_results` in
order and aborting the run on the first raised error. -/
def analyzeLoop (hlT : List HlTrade) (hlF : List HlFund) (bb : List BbRow)
    (durationHours : ℚ) : VarState → List String → Except String (List Row)
  | _, [] => Except.ok []
  | st, coin :: rest =>
    match analyzeCoin st coin hlT hlF bb durationHours with
    | Except.error e => Except.error e
    | Except.ok (none, st2) => analyzeLoop hlT hlF bb durationHours st2 rest
    | Except.ok (some row, st2) =>
      match analyzeLoop hlT hlF bb durationHours st2 rest with
      | Except.error e => Except.error e
      | Except.ok rows => Except.ok (row :: rows)

/-- The target-coin prefilter of the trades frame (line 417). -/
def tgtTrades (coins : List String) (l : List HlTrade) : List HlTrade :=
  l.filter (fun t => coins.contains t.coin)

/-- The target-coin prefilter of the funding frame (line 422). -/
def tgtFunds (coins : List String) (l : List HlFund) : List HlFund :=
  l.filter (fun f => coins.contains f.coin)

/-- The target-symbol prefilter of the Bybit frame (lines 426-428). -/
def tgtBb (coins : List String) (l : List BbRow) : List BbRow :=
  l.filter (fun r => (coins.map (fun c => c ++ "USDT")).contains r.symbol)

/-- The analysis phase of `analyze_performance` (lines 415-696), as a
function of the already-extracted record frames and the window duration in
hours: prefilter each frame to the target instruments, then run the
per-coin loop from the fresh variable state. -/
def analyze_performance (coins : List String) (hlT : List HlTrade)
    (hlF : List HlFund) (bb : List BbRow) (durationHours : ℚ) :
    Except String (List Row) :=
  analyzeLoop (tgtTrades coins hlT) (tgtFunds coins hlF) (tgtBb coins bb)
    durationHours initialVarState coins

/-! ### Claim-side definitions

`openSignedSum`/`closeSignedSum` restate, in the claim's vocabulary of two
independent sums, the per-fill contributions of the loop's `open` and
`close` classification branches (a fill is classified by the source's
`if 'open' in dir: … elif 'close' in dir: …` priority). -/

/-- Signed sum over the fills classified as opening: `+sz` for long/buy,
`-sz` for short/sell, `0` for an unmatched side tag. -/
def openSignedSum (l : List HlTrade) : ℚ :=
  ((l.filter openTag).map
    (fun t => if longTag t then t.sz else if shortTag t then -t.sz else 0)).sum

/-- Signed sum over the fills classified as closing (`'close'` in the tag
and not `'open'`, per the `elif` priority): `-sz` for long/buy, `+sz` for
short/sell. -/
def closeSignedSum (l : List HlTrade) : ℚ :=
  ((l.filter (fun t => !openTag t && closeTag t)).map
    (fun t => if longTag t then -t.sz else if shortTag t then t.sz else 0)).sum

/-- Per-fill contribution to the running net size, combining both
classification branches. -/
def fillContrib (t : HlTrade) : ℚ :=
  if openTag t then
    if longTag t then t.sz else if shortTag t then -t.sz else 0
  else if closeTag t then
    if longTag t then -t.sz else if shortTag t then t.sz else 0
  else 0

/-- Classified-as-closing predicate (the `elif 'close' in dir` branch). -/
def closedOnlyTag (t : HlTrade) : Bool := !openTag t && closeTag t

/-! ### Concrete scenarios used by the witnesses and counterexamples -/

/-- A Bybit execution timestamped at second 500, outside the `[1000, 2000]`
second window requested in the scenario below. -/
def execA : BbExec :=
  { symbol := "ENAUSDT", execType := "Trade", execTime := 500000, execFee := 1,
    side := "Buy", execQty := 2, execPrice := 3, closedPnl := 0,
    execId := "e1", orderId := "o1" }

/-- A Bybit client whose every execution page is `[execA]`: the discovery
phase finds symbol `ENAUSDT` and the per-symbol phase returns the
out-of-window execution. -/
def exClient1 : BbExecClient := fun _ _ _ _ => some ([execA], none)

/-- A closed-PnL client with no data. -/
def pnlClientNone : BbPnlClient := fun _ _ _ => none

/-- A Bybit execution inside the `[1000, 2000]` second window. -/
def execB : BbExec :=
  { symbol := "ENAUSDT", execType := "Trade", execTime := 1500000, execFee := 1,
    side := "Buy", execQty := 2, execPrice := 3, closedPnl := 0,
    execId := "e2", orderId := "o2" }

/-- A Bybit client serving two overlapping pages: the first per-symbol page
contains `execB` and points to a second page that contains `execB` again. -/
def exClient2 : BbExecClient := fun sym _ _ cur =>
  match sym, cur with
  | none, _ => some ([execB], none)
  | some _, none => some ([execB], some "c2")
  | some _, some _ => some ([execB], none)

/-- A raw fill served by the first time chunk in the failure scenario. -/
def rawFillA : RawFill :=
  { time := 1000, coin := "ENA", dir := "Open Long", px := 2, sz := 3,
    fee := 1/10, closedPnl := 0 }

/-- A raw fill the third time chunk would serve in the failure scenario. -/
def rawFillC : RawFill :=
  { time := 100000000, coin := "ENA", dir := "Close Long", px := 2, sz := 3,
    fee := 1/10, closedPnl := 0 }

/-- A Hyperliquid client over a three-chunk window `[0, 259200000)` ms:
chunk 1 (start 0) serves `rawFillA`, chunk 2 (start 86400001) fails with a
non-200 status, and chunk 3 (start 172800002) would serve `rawFillC`. -/
def exClient3 : Nat → Nat → PageResp RawFill := fun s _ =>
  if s = 0 then PageResp.ok [rawFillA]
  else if s = 86400001 then PageResp.fail
  else PageResp.ok [rawFillC]

/-- A Hyperliquid client that always fails. -/
def hlFailClient : Nat → Nat → PageResp RawFill := fun _ _ => PageResp.fail

/-- A Hyperliquid trades client serving one in-window fill on every chunk. -/
def exClient4 : Nat → Nat → PageResp RawFill := fun _ _ => PageResp.ok [rawFillA]

/-- A Hyperliquid funding client serving one raw funding entry. -/
def exClientFund : Nat → Nat → PageResp RawFund := fun _ _ =>
  PageResp.ok [{ time := 1000, coin := "ENA", szi := 5, usdc := 1/4,
                 fundingRate := 1/10000 }]

/-- Spec example fill: Open-Long, size 10, price 100. -/
def tOpenLong : HlTrade :=
  { timeSec := 0, coin := "ENA", dir := "Open Long", px := 100, sz := 10,
    ntl := 1000, fee := 1/10, closedPnl := 0 }

/-- Spec example fill: Close-Long, size 10, price 110. -/
def tCloseLong : HlTrade :=
  { timeSec := 1, coin := "ENA", dir := "Close Long", px := 110, sz := 10,
    ntl := 1100, fee := 1/10, closedPnl := 0 }

/-- Spec example fill: Open-Short, size 5, price 50. -/
def tOpenShort : HlTrade :=
  { timeSec := 0, coin := "ENA", dir := "Open Short", px := 50, sz := 5,
    ntl := 250, fee := 0, closedPnl := 0 }

/-- An opening fill whose size `0.0005` nets to within the `0.001` epsilon,
so the position counts as closed although no closing fill exists. -/
def tTinyOpen : HlTrade :=
  { timeSec := 0, coin := "ENA", dir := "Open Long", px := 100, sz := 1/2000,
    ntl := 1/20, fee := 1/10, closedPnl := 0 }

/-- A funding record used to give a coin data without any fills. -/
def fundENA : HlFund :=
  { timeSec := 0, coin := "ENA", sz := 5, side := "Long", payment := 1/4,
    rate := 1/10000 }

/-! ### Helper lemmas -/

/-- A list filtered by a predicate satisfies that predicate everywhere. -/
theorem filter_all {α : Type} (p : α → Bool) (l : List α) :
    (l.filter p).all p = true := by
  rw [List.all_eq_true]
  intro a ha
  exact List.of_mem_filter ha

/-- One step of the net-position loop, written through the per-fill
contribution and the two classification flags. -/
theorem tradeStep_eq (acc : ℚ × Bool × Bool) (t : HlTrade) :
    tradeStep acc t =
      (acc.1 + fillContrib t, acc.2.1 || openTag t, acc.2.2 || closedOnlyTag t) := by
  obtain ⟨n, o, c⟩ := acc
  unfold tradeStep fillContrib closedOnlyTag
  cases ho : openTag t <;> cases hc : closeTag t <;>
    cases hl : longTag t <;> cases hs : shortTag t <;>
    simp [ho, hc, hl, hs, sub_eq_add_neg]

/-- The net-position loop from an arbitrary starting state. -/
theorem tradeFold_from (l : List HlTrade) : ∀ (n : ℚ) (o c : Bool),
    List.foldl tradeStep (n, o, c) l =
      (n + (l.map fillContrib).sum, o || l.any openTag, c || l.any closedOnlyTag) := by
  induction l with
  | nil => intro n o c; simp
  | cons t ts ih =>
    intro n o c
    rw [List.foldl_cons, tradeStep_eq]
    rw [ih]
    simp [Bool.or_assoc, add_assoc]

/-- The accumulated net size is the sum of the per-fill contributions. -/
theorem net_eq_sum (l : List HlTrade) :
    net_position_size l = (l.map fillContrib).sum := by
  unfold net_position_size tradeFold
  rw [tradeFold_from]
  simp

/-- Flag `position_opened` holds iff some fill carries an `open` tag. -/
theorem opened_eq_any (l : List HlTrade) : position_opened l = l.any openTag := by
  unfold position_opened tradeFold
  rw [tradeFold_from]
  simp

/-- Flag `position_closed` holds iff some fill reaches the `elif 'close'`
branch. -/
theorem closed_eq_any (l : List HlTrade) :
    position_closed l = l.any closedOnlyTag := by
  unfold position_closed tradeFold
  rw [tradeFold_from]
  simp

/-- The contribution sum splits into the open-classified and
close-classified signed sums. -/
theorem contribSum_split (l : List HlTrade) :
    (l.map fillContrib).sum = openSignedSum l + closeSignedSum l := by
  induction l with
  | nil => simp [openSignedSum, closeSignedSum]
  | cons t ts ih =>
    unfold openSignedSum closeSignedSum at ih ⊢
    cases ho : openTag t <;> cases hc : closeTag t <;>
      simp [fillContrib, List.filter_cons, closedOnlyTag, ho, hc, ih] <;> ring

/-- Function `List.any` is invariant under permutation. -/
theorem perm_any {α : Type} (p : α → Bool) {l1 l2 : List α} (h : l1.Perm l2) :
    l1.any p = l2.any p := by
  cases h1 : l1.any p <;> cases h2 : l2.any p <;> try rfl
  · obtain ⟨x, hx, hpx⟩ := List.any_eq_true.mp h2
    have : l1.any p = true := List.any_eq_true.mpr ⟨x, h.mem_iff.mpr hx, hpx⟩
    rw [h1] at this
    exact absurd this (by simp)
  · obtain ⟨x, hx, hpx⟩ := List.any_eq_true.mp h1
    have : l2.any p = true := List.any_eq_true.mpr ⟨x, h.mem_iff.mp hx, hpx⟩
    rw [h2] at this
    exact absurd this (by simp)

/-- Function `List.isEmpty` is invariant under permutation. -/
theorem perm_isEmpty {α : Type} {l1 l2 : List α} (h : l1.Perm l2) :
    l1.isEmpty = l2.isEmpty := by
  have := h.length_eq
  cases l1 <;> cases l2 <;> simp_all

/-- The trades ingestion fold appends exactly the first-occurrence
key-dedup of the incoming raw fills. -/
theorem processFills_eq (fs : List RawFill) : ∀ (seen : List FillKey)
    (acc : List HlTrade),
    (processFills (seen, acc) fs).2 = acc ++ (dedupFills seen fs).map mkTrade := by
  induction fs with
  | nil => intro seen acc; simp [processFills, dedupFills]
  | cons f fs ih =>
    intro seen acc
    rw [show processFills (seen, acc) (f :: fs) =
      processFills (processFill (seen, acc) f) fs from rfl]
    unfold processFill dedupFills
    by_cases hk : fillKey f ∈ seen
    · rw [if_pos hk, if_pos hk]
      exact ih seen acc
    · rw [if_neg hk, if_neg hk]
      rw [ih]
      simp

/-- The funding ingestion fold appends exactly the first-occurrence
key-dedup of the incoming raw funding entries. -/
theorem processFunds_eq (gs : List RawFund) : ∀ (seen : List FundKey)
    (acc : List HlFund),
    (processFunds (seen, acc) gs).2 = acc ++ (dedupFunds seen gs).map mkFund := by
  induction gs with
  | nil => intro seen acc; simp [processFunds, dedupFunds]
  | cons g gs ih =>
    intro seen acc
    rw [show processFunds (seen, acc) (g :: gs) =
      processFunds (processFund (seen, acc) g) gs from rfl]
    unfold processFund dedupFunds
    by_cases hk : fundKey g ∈ seen
    · rw [if_pos hk, if_pos hk]
      exact ih seen acc
    · rw [if_neg hk, if_neg hk]
      rw [ih]
      simp

/-- The symbol of a built row is the analyzed coin. -/
theorem mkRow_symbol (coin : String) (fills : List HlTrade)
    (funding : List HlFund) (coinBb : List BbRow) (d a b : ℚ) :
    (mkRow coin fills funding coinBb d a b).symbol = coin := rfl

/-- A coin without data is skipped with the variable state unchanged. -/
theorem analyzeCoin_skip (st : VarState) (coin : String) (hlT : List HlTrade)
    (hlF : List HlFund) (bb : List BbRow) (d : ℚ)
    (h : coinHasData coin hlT hlF bb = false) :
    analyzeCoin st coin hlT hlF bb d = Except.ok (none, st) := by
  unfold analyzeCoin
  rw [h]
  rfl

/-- A coin with data either aborts the run or yields a row labelled with
that coin. -/
theorem analyzeCoin_data (st : VarState) (coin : String) (hlT : List HlTrade)
    (hlF : List HlFund) (bb : List BbRow) (d : ℚ)
    (h : coinHasData coin hlT hlF bb = true) :
    (∃ e, analyzeCoin st coin hlT hlF bb d = Except.error e) ∨
    ∃ row st2, analyzeCoin st coin hlT hlF bb d = Except.ok (some row, st2) ∧
      row.symbol = coin := by
  unfold analyzeCoin
  rw [h]
  cases hcomm : hl_commissions
      (updateVars st (hlT.filter (fun t => t.coin == coin)))
      (hlT.filter (fun t => t.coin == coin)) with
  | error e =>
    left
    exact ⟨e, by simp⟩
  | ok p =>
    right
    obtain ⟨hlCo, hlCc⟩ := p
    exact ⟨mkRow coin (hlT.filter (fun t => t.coin == coin))
        (hlF.filter (fun f => f.coin == coin))
        (bb.filter (fun r => r.symbol == coin ++ "USDT")) d hlCo hlCc,
      updateVars st (hlT.filter (fun t => t.coin == coin)),
      by simp, mkRow_symbol ..⟩

/-- The per-coin loop emits rows labelled exactly by the coins that have
data, in order, whenever it completes without an error. -/
theorem analyzeLoop_symbols (hlT : List HlTrade) (hlF : List HlFund)
    (bb : List BbRow) (d : ℚ) : ∀ (coins : List String) (st : VarState),
    (analyzeLoop hlT hlF bb d st coins).map (List.map Row.symbol) =
      (analyzeLoop hlT hlF bb d st coins).map
        (fun _ => coins.filter (fun c => coinHasData c hlT hlF bb)) := by
  intro coins
  induction coins with
  | nil => intro st; rfl
  | cons c rest ih =>
    intro st
    by_cases hd : coinHasData c hlT hlF bb = true
    · rcases analyzeCoin_data st c hlT hlF bb d hd with ⟨e, he⟩ | ⟨row, st2, hok, hsym⟩
      · simp [analyzeLoop, he, Except.map]
      · have ihst := ih st2
        cases hrest : analyzeLoop hlT hlF bb d st2 rest with
        | error e2 => simp [analyzeLoop, hok, hrest, Except.map]
        | ok rows =>
          rw [hrest] at ihst
          simp only [Except.map] at ihst
          have hrows : rows.map Row.symbol =
              rest.filter (fun x => coinHasData x hlT hlF bb) :=
            Except.ok.inj ihst
          simp [analyzeLoop, hok, hrest, Except.map, List.filter_cons, hd,
            hsym, hrows]
    · have hd2 : coinHasData c hlT hlF bb = false := by
        revert hd
        cases coinHasData c hlT hlF bb <;> simp
      rw [show analyzeLoop hlT hlF bb d st (c :: rest) =
          analyzeLoop hlT hlF bb d st rest from by
        simp [analyzeLoop, analyzeCoin_skip st c hlT hlF bb d hd2]]
      rw [ih st]
      simp [List.filter_cons, hd2]

/-! ### Claims

The rational arithmetic of the embedding is evaluated inside concrete
witnesses and counterexamples, so the arithmetic on `ℚ` is unsealed for
kernel-level evaluation. -/

unseal Rat.add Rat.mul Rat.sub Rat.inv Rat.ofScientific

/-- Claim C1, counterexample: the Bybit extractor applies no client-side
window re-filter, so for the second-window `[1000, 2000]` and a client
whose execution page carries a record timestamped at second 500, that
out-of-range record is returned, refuting the claim that every extraction
run re-asserts `start ≤ t ≤ end`. -/
theorem C1_counterexample :
    mkBbExecRow execA ∈ extract_bybit_data exClient1 pnlClientNone 5 1000 2000 ∧
    ¬ (1000 ≤ (mkBbExecRow execA).timeSec ∧ (mkBbExecRow execA).timeSec ≤ 2000) := by
  decide

/-- Claim C1, amended: the two Hyperliquid extractors do re-assert the
window bounds — every record either extractor returns, for every client
and window, satisfies `start ≤ t ≤ end`; the Bybit extractor applies no
such re-filter (see the counterexample). -/
theorem C1_theorem (clientT : Nat → Nat → PageResp RawFill)
    (clientF : Nat → Nat → PageResp RawFund) (startSec endSec : Nat) :
    (extract_hyperliquid_trades clientT startSec endSec).all
      (fun r => decide (startSec ≤ r.timeSec ∧ r.timeSec ≤ endSec)) = true ∧
    (extract_hyperliquid_funding clientF startSec endSec).all
      (fun r => decide (startSec ≤ r.timeSec ∧ r.timeSec ≤ endSec)) = true := by
  constructor
  · simp only [extract_hyperliquid_trades]
    split
    · rename_i h
      rw [List.isEmpty_iff] at h
      rw [h]
      rfl
    · exact filter_all _ _
  · simp only [extract_hyperliquid_funding]
    split
    · rename_i h
      rw [List.isEmpty_iff] at h
      rw [h]
      rfl
    · exact filter_all _ _

/-- Claim C2, counterexample: the Bybit extractor consults no dedup set;
served two overlapping pages both containing the identical execution
`execB`, it returns the corresponding record twice, not once. -/
theorem C2_counterexample :
    List.count (mkBbExecRow execB)
      (extract_bybit_data exClient2 pnlClientNone 5 1000 2000) = 2 ∧
    (2 : Nat) ≠ 1 := by
  decide

/-- Claim C2, amended: the ingestion folds of the two Hyperliquid
extractors do deduplicate — over any incoming stream of raw records they
append exactly one normalized record per distinct identity key, the first
occurrence; the Bybit extractor appends unconditionally (see the
counterexample). -/
theorem C2_theorem (fs : List RawFill) (gs : List RawFund) :
    (processFills ([], []) fs).2 = (dedupFills [] fs).map mkTrade ∧
    (processFunds ([], []) gs).2 = (dedupFunds [] gs).map mkFund := by
  constructor
  · rw [processFills_eq]
    rfl
  · rw [processFunds_eq]
    rfl

/-- Claim C3, counterexample: with chunk 1 serving a fill, chunk 2 failing
with a non-200 status and chunk 3 ready to serve another fill, the
Hyperliquid loop issues only the first two requests and returns only the
chunk-1 record: the chunks after the failing one are not requested,
refuting the claim that only the failing chunk's pagination is aborted. -/
theorem C3_counterexample :
    (hlPagedLoop exClient3 processFills 259200001 259200000 0 ([], [])).1 =
      [(0, 86400000), (86400001, 172800001)] ∧
    (hlPagedLoop exClient3 processFills 259200001 259200000 0 ([], [])).2.2 =
      [mkTrade rawFillA] ∧
    ¬ ((172800002, 259200000) ∈
        (hlPagedLoop exClient3 processFills 259200001 259200000 0 ([], [])).1) ∧
    ¬ (mkTrade rawFillC ∈
        (hlPagedLoop exClient3 processFills 259200001 259200000 0 ([], [])).2.2) := by
  decide

/-- Claim C3, amended: when a Hyperliquid page request fails with a
non-success response, the failed request is issued exactly once (no
retry), the records accumulated from earlier chunks are returned unchanged
(no exception), but the whole remaining traversal is aborted: the failing
request is the last one issued, so chunks after the failing one are never
requested. -/
theorem C3_theorem {ρ σ : Type} (client : Nat → Nat → PageResp ρ)
    (process : σ → List ρ → σ) (fuel endT nextStart : Nat) (st : σ)
    (h0 : 0 < fuel) (h1 : nextStart < endT)
    (h2 : client nextStart (min (nextStart + dayMs) endT) = PageResp.fail) :
    hlPagedLoop client process fuel endT nextStart st =
      ([(nextStart, min (nextStart + dayMs) endT)], st) := by
  cases fuel with
  | zero => exact absurd h0 (by simp)
  | succ f =>
    simp only [hlPagedLoop]
    rw [if_pos h1]
    rw [h2]

/-- Claim C3, witness: a concrete failing first chunk, at which the loop
returns the single failed request and the prior accumulated state. -/
theorem C3_witness :
    hlPagedLoop hlFailClient processFills 1 5 0 ([], [mkTrade rawFillA]) =
      ([(0, min (0 + dayMs) 5)], ([], [mkTrade rawFillA])) :=
  C3_theorem hlFailClient processFills 1 5 0 ([], [mkTrade rawFillA])
    (by decide) (by decide) rfl

/-- Claim C4: for a coin with fills, the accumulated net signed size is the
signed sum over the open-classified fills plus the signed sum over the
close-classified fills (classification follows the source's
`if 'open' in dir: … elif 'close' in dir: …` priority, with unmatched tags
contributing nothing); the position is Open iff `|net| > 0.001`, and an
open position is sided Long exactly when the net size is positive. -/
theorem C4_theorem (fills : List HlTrade) (funding : List HlFund)
    (h : fills ≠ []) :
    net_position_size fills = openSignedSum fills + closeSignedSum fills ∧
    (position_is_open fills = true ↔ (0.001 : ℚ) < |net_position_size fills|) ∧
    (position_is_open fills = true →
      position_side fills funding =
        if 0 < net_position_size fills then "Long hl" else "Short hl") := by
  have hemp : fills.isEmpty = false := by
    cases fills with
    | nil => exact absurd rfl h
    | cons a as => rfl
  refine ⟨by rw [net_eq_sum, contribSum_split], ?_, ?_⟩
  · unfold position_is_open
    rw [hemp]
    simp
  · intro hop
    have hlt : (0.001 : ℚ) < |net_position_size fills| := by
      unfold position_is_open at hop
      rw [hemp] at hop
      simpa using hop
    cases fills with
    | nil => exact absurd rfl h
    | cons t0 ts =>
      simp only [position_side]
      rw [if_pos hlt]

/-- Claim C4, witness: the single Open-Short fill of size 5 at price 50
from the spec's example. -/
theorem C4_witness :
    net_position_size [tOpenShort] =
      openSignedSum [tOpenShort] + closeSignedSum [tOpenShort] ∧
    (position_is_open [tOpenShort] = true ↔
      (0.001 : ℚ) < |net_position_size [tOpenShort]|) ∧
    (position_is_open [tOpenShort] = true →
      position_side [tOpenShort] [] =
        if 0 < net_position_size [tOpenShort] then "Long hl" else "Short hl") :=
  C4_theorem [tOpenShort] [] (by decide)

/-- Claim C5: position reconstruction is order-independent — permuting the
fill sequence of one coin changes neither the net signed size, nor the
open/closed status, nor the entry price, nor the exit price. -/
theorem C5_theorem (l1 l2 : List HlTrade) (h : l1.Perm l2) :
    net_position_size l1 = net_position_size l2 ∧
    position_is_open l1 = position_is_open l2 ∧
    entry_price l1 = entry_price l2 ∧
    exit_price l1 = exit_price l2 := by
  have hnet : net_position_size l1 = net_position_size l2 := by
    rw [net_eq_sum, net_eq_sum]
    exact (h.map fillContrib).sum_eq
  have hemp := perm_isEmpty h
  have hopen : position_is_open l1 = position_is_open l2 := by
    unfold position_is_open
    rw [hemp, hnet]
  have hopened : position_opened l1 = position_opened l2 := by
    rw [opened_eq_any, opened_eq_any, perm_any openTag h]
  have hclosedf : position_closed l1 = position_closed l2 := by
    rw [closed_eq_any, closed_eq_any, perm_any closedOnlyTag h]
  have e1 : (List.filter openTag l1).isEmpty = (List.filter openTag l2).isEmpty :=
    perm_isEmpty (h.filter openTag)
  have e2 : ((List.filter openTag l1).map HlTrade.sz).sum =
      ((List.filter openTag l2).map HlTrade.sz).sum :=
    ((h.filter openTag).map HlTrade.sz).sum_eq
  have e3 : ((List.filter openTag l1).map (fun t => |t.sz| * t.px)).sum =
      ((List.filter openTag l2).map (fun t => |t.sz| * t.px)).sum :=
    ((h.filter openTag).map (fun t => |t.sz| * t.px)).sum_eq
  have f1 : (List.filter closeTag l1).isEmpty = (List.filter closeTag l2).isEmpty :=
    perm_isEmpty (h.filter closeTag)
  have f2 : ((List.filter closeTag l1).map HlTrade.sz).sum =
      ((List.filter closeTag l2).map HlTrade.sz).sum :=
    ((h.filter closeTag).map HlTrade.sz).sum_eq
  have f3 : ((List.filter closeTag l1).map (fun t => |t.sz| * t.px)).sum =
      ((List.filter closeTag l2).map (fun t => |t.sz| * t.px)).sum :=
    ((h.filter closeTag).map (fun t => |t.sz| * t.px)).sum_eq
  refine ⟨hnet, hopen, ?_, ?_⟩
  · simp only [entry_price, open_trades]
    rw [hopened, hemp, e1, e2, e3]
  · simp only [exit_price, close_trades]
    rw [hclosedf, hopen, hemp, f1, f2, f3]

/-- Claim C5, witness: swapping the two fills of the spec's closed-position
example. -/
theorem C5_witness :
    net_position_size [tOpenLong, tCloseLong] =
      net_position_size [tCloseLong, tOpenLong] ∧
    position_is_open [tOpenLong, tCloseLong] =
      position_is_open [tCloseLong, tOpenLong] ∧
    entry_price [tOpenLong, tCloseLong] = entry_price [tCloseLong, tOpenLong] ∧
    exit_price [tOpenLong, tCloseLong] = exit_price [tCloseLong, tOpenLong] :=
  C5_theorem [tOpenLong, tCloseLong] [tCloseLong, tOpenLong]
    (List.Perm.swap tCloseLong tOpenLong [])

/-- Claim C6: for a still-open position the exit price stays undefined even
if closing fills exist, and whenever an exit price is produced the
position ended not-open and the value is the size-weighted average price
over the close-tagged fills. -/
theorem C6_theorem (fills : List HlTrade) (v : ℚ) :
    (position_is_open fills = true → exit_price fills = none) ∧
    (exit_price fills = some v →
      position_is_open fills = false ∧
      v = ((close_trades fills).map (fun t => |t.sz| * t.px)).sum /
          |((close_trades fills).map HlTrade.sz).sum|) := by
  constructor
  · intro hop
    simp only [exit_price, hop]
    simp
  · intro hv
    simp only [exit_price] at hv
    split at hv
    · rename_i hcond
      split at hv
      · split at hv
        · simp only [Bool.and_eq_true, Bool.not_eq_true'] at hcond
          exact ⟨hcond.1.2, (Option.some.inj hv).symm⟩
        · exact absurd hv (by simp)
      · exact absurd hv (by simp)
    · exact absurd hv (by simp)

/-- Claim C6, witness: the spec's open-position example — a single
Open-Short fill leaves the exit price undefined. -/
theorem C6_witness : exit_price [tOpenShort] = none :=
  (C6_theorem [tOpenShort] 0).1 (by decide)

/-- Claim C7, counterexample: with commissions summing to cost 5, funding
total 2 (positive but below the cost) and duration 0, the code returns the
999999 sentinel, not the 0 fallback the claim asserts for every
`funding-per-hour ≤ 0` case of the positive-funding branch. -/
theorem C7_counterexample :
    days_until_commission_paid (-5) 0 2 0 = 999999 ∧ (999999 : ℚ) ≠ 0 := by
  decide

/-- Claim C7, amended: in the positive-cost, positive-funding branch the
zero fallback applies only in the sub-branch where funding already covers
the cost; when funding has not covered the cost and funding-per-hour is
not positive the sentinel 999999 is returned instead; whenever the
duration is positive both sub-branches return
`(cost / (funding / duration)) / 24`. -/
theorem C7_theorem (co cc f d : ℚ) (h1 : 0 < |co + cc|) (h2 : 0 < f) :
    (|co + cc| ≤ f → ¬ (0 < d) →
      days_until_commission_paid co cc f d = 0) ∧
    (f < |co + cc| → ¬ (0 < d) →
      days_until_commission_paid co cc f d = 999999) ∧
    (0 < d →
      days_until_commission_paid co cc f d = |co + cc| / (f / d) / 24) := by
  refine ⟨?_, ?_, ?_⟩
  · intro hle hnd
    simp only [days_until_commission_paid]
    rw [if_pos ⟨h1, h2⟩, if_pos hle, if_neg hnd, if_neg (lt_irrefl 0)]
  · intro hlt hnd
    simp only [days_until_commission_paid]
    rw [if_pos ⟨h1, h2⟩, if_neg (not_le.mpr hlt), if_neg hnd,
      if_neg (lt_irrefl 0)]
  · intro hd
    have hfd : 0 < f / d := div_pos h2 hd
    simp only [days_until_commission_paid]
    rw [if_pos ⟨h1, h2⟩]
    by_cases hle : |co + cc| ≤ f
    · rw [if_pos hle, if_pos hd, if_pos hfd]
    · rw [if_neg hle, if_pos hd, if_pos hfd]

/-- Claim C7, witness: cost 5, funding 10 covering it, duration 0 — the
zero fallback of the covered sub-branch. -/
theorem C7_witness : days_until_commission_paid (-5) 0 10 0 = 0 :=
  (C7_theorem (-5) 0 10 0 (by decide) (by decide)).1 (by decide) (by decide)

/-- Claim C8: a strictly positive absolute commission cost with
non-positive funding yields the unrecoverable sentinel 999999, and a zero
commission cost yields 0 days. -/
theorem C8_theorem (co cc f d : ℚ) :
    (0 < |co + cc| → f ≤ 0 → days_until_commission_paid co cc f d = 999999) ∧
    (|co + cc| = 0 → days_until_commission_paid co cc f d = 0) := by
  constructor
  · intro hc hf
    simp only [days_until_commission_paid]
    rw [if_neg (fun hp => absurd hp.2 (not_lt.mpr hf)), if_pos ⟨hc, hf⟩]
  · intro h0
    simp only [days_until_commission_paid]
    rw [if_neg (fun hp => absurd (h0 ▸ hp.1) (lt_irrefl 0)),
      if_neg (fun hp => absurd (h0 ▸ hp.1) (lt_irrefl 0)), if_pos h0]

/-- Claim C8, witness: the spec's sentinel example, commission cost 5 and
funding total −2. -/
theorem C8_witness : days_until_commission_paid (-5) 0 (-2) 1 = 999999 :=
  (C8_theorem (-5) 0 (-2) 1).1 (by decide) (by decide)

/-- Claim C9, counterexample: a target instrument with no extracted records
is skipped by the `continue` guard — with target set `["ENA"]` and empty
frames the pipeline emits zero rows for ENA, not the one row per
instrument the claim requires regardless of data. -/
theorem C9_counterexample :
    (analyze_performance ["ENA"] [] [] [] 1).map
      (fun rows => (rows.filter (fun r => r.symbol == "ENA")).length) =
      Except.ok 0 ∧
    (0 : Nat) ≠ 1 :=
  ⟨rfl, by decide⟩

/-- Claim C9, amended: whenever the run completes without an error it
emits exactly one row per target instrument that has at least one record
in the prefiltered frames, labelled with that instrument and in target
order; instruments with no data are skipped and produce no row. -/
theorem C9_theorem (coins : List String) (hlT : List HlTrade)
    (hlF : List HlFund) (bb : List BbRow) (d : ℚ) :
    (analyze_performance coins hlT hlF bb d).map (List.map Row.symbol) =
      (analyze_performance coins hlT hlF bb d).map
        (fun _ => coins.filter (fun c =>
          coinHasData c (tgtTrades coins hlT) (tgtFunds coins hlF)
            (tgtBb coins bb))) := by
  unfold analyze_performance
  exact analyzeLoop_symbols (tgtTrades coins hlT) (tgtFunds coins hlF)
    (tgtBb coins bb) d coins initialVarState

/-- Claim C10: commission attribution is total only when every coin whose
position nets to within the epsilon saw both classification branches — for
a sole coin whose fills net to closed but include no close-tagged fill,
the closed-position split reads the never-assigned `close_trades` local
and the run aborts with the NameError instead of returning a result. -/
theorem C10_theorem (coin : String) (fills : List HlTrade)
    (h1 : fills ≠ []) (h2 : ∀ t ∈ fills, t.coin = coin)
    (h3 : position_is_open fills = false)
    (h4 : ∀ t ∈ fills, closeTag t = false) :
    analyze_performance [coin] fills [] [] 1 = Except.error "NameError" := by
  have hfilter : fills.filter (fun t => t.coin == coin) = fills := by
    apply List.filter_eq_self.mpr
    intro t ht
    simp [h2 t ht]
  have htgt : tgtTrades [coin] fills = fills := by
    apply List.filter_eq_self.mpr
    intro t ht
    simp [h2 t ht]
  have hclosed : position_closed fills = false := by
    rw [closed_eq_any]
    cases hval : fills.any closedOnlyTag with
    | false => rfl
    | true =>
      obtain ⟨t, ht, hp⟩ := List.any_eq_true.mp hval
      unfold closedOnlyTag at hp
      rw [Bool.and_eq_true] at hp
      rw [h4 t ht] at hp
      exact absurd hp.2 (by simp)
  have hvar : (updateVars initialVarState fills).closeTradesVar = none := by
    unfold updateVars
    rw [hclosed]
    simp only [Bool.false_and]
    rw [if_neg Bool.false_ne_true]
    split <;> rfl
  have hcomm : hl_commissions (updateVars initialVarState fills) fills =
      Except.error "NameError" := by
    unfold hl_commissions
    rw [h3]
    rw [if_neg Bool.false_ne_true]
    cases hov : (updateVars initialVarState fills).openTradesVar with
    | none => rfl
    | some ot => rw [hvar]
  have hcd : coinHasData coin fills [] [] = true := by
    unfold coinHasData
    rw [hfilter]
    cases fills with
    | nil => exact absurd rfl h1
    | cons a as => rfl
  have hac : analyzeCoin initialVarState coin fills [] [] 1 =
      Except.error "NameError" := by
    unfold analyzeCoin
    rw [hcd, hfilter, hcomm]
    simp
  show analyzeLoop (tgtTrades [coin] fills) (tgtFunds [coin] [])
      (tgtBb [coin] []) 1 initialVarState [coin] = Except.error "NameError"
  rw [htgt]
  show analyzeLoop fills [] [] 1 initialVarState [coin] = Except.error "NameError"
  unfold analyzeLoop
  rw [hac]

/-- Claim C10, witness: a single ENA fill of size 0.0005 — within the
closing epsilon but carrying no close tag — aborts the run. -/
theorem C10_witness :
    analyze_performance ["ENA"] [tTinyOpen] [] [] 1 = Except.error "NameError" :=
  C10_theorem "ENA" [tTinyOpen] (by decide) (by decide) (by decide) (by decide)

end FundingArb
